import Mathlib

/-!
Verification development for the `aeiou` effect-algebra runtime.

A Rust generator is embedded as a state machine: one `resume` consumes the
current machine state together with the shared mailbox (`Context`) and
produces either a yielded value or completion, a successor state, and the
mailbox as the computation left it.  The combinators of the crate —
`Computation::add_handler` (computation.rs), `Block::add_handler` and
`Block::spawn` (new.rs) — are embedded as transformers of such machines,
faithfully following the body of each generator closure, with explicit
fuel where the closure contains an unbounded internal loop and an explicit
micro-step relation for the scheduler's tick loop.
-/

set_option maxRecDepth 8000

/-- `GeneratorState` of Rust: a resume either yields a value or completes. -/
inductive GenStep (Y : Type) where
  | yielded : Y → GenStep Y
  | complete : GenStep Y
deriving DecidableEq, Repr

/-- A generator (coroutine) with yield type `Y`, interacting with a shared
single-slot mailbox holding values of type `M`; `σ` is its private state. -/
structure Machine (σ M Y : Type) where
  step : σ → Option M → GenStep Y × σ × Option M

namespace Context

/-- `Context::put` (context.rs): stores `v`, overwriting any unconsumed value. -/
def put {M : Type} (_c : Option M) (v : M) : Option M :=
  some v

/-- `Context::take` (context.rs): returns the current content and clears the
slot; the first component is what `take` returns, the second the slot after. -/
def take {M : Type} (c : Option M) : Option M × Option M :=
  (c, none)

end Context

/-- Claim C3: the Mailbox is a single slot: `put a; put b; take()` yields
`some b` — the second `put` overwrote the unconsumed first value with no
queueing — and the immediately following `take()` reports empty (`none`),
so the value is delivered exactly once. -/
theorem context_put_put_take {M : Type} (a b : M) (c : Option M) :
    (Context.take (Context.put (Context.put c a) b)).1 = some b ∧
    (Context.take (Context.put (Context.put c a) b)).2 = none ∧
    (Context.take (Context.take (Context.put (Context.put c a) b)).2).1 = none := by
  simp [Context.put, Context.take]

/-- `Computation::add_handler` (computation.rs): the wrapping generator's body.
One resume of the wrapper drives the inner machine in a loop: on inner
completion it returns completion; on an inner yield it calls the (stateful)
handler — `Except.ok handled` writes `handled` into the shared context and
loops (resuming the inner machine again), `Except.error unhandled` yields
`unhandled` outward.  The internal loop is unbounded, so it takes fuel;
`none` means the fuel ran out before the wrapper reached a yield or
completion. -/
def Computation.add_handler_step {σ σH M Y : Type}
    (inner : Machine σ M Y) (handler : σH → Y → Except Y M × σH) :
    Nat → σ × σH → Option M → Option (GenStep Y × (σ × σH) × Option M)
  | 0, _, _ => none
  | fuel + 1, (s, hs), mb =>
    match inner.step s mb with
    | (GenStep.complete, s', mb') => some (GenStep.complete, (s', hs), mb')
    | (GenStep.yielded y, s', mb') =>
      match handler hs y with
      | (Except.ok handled, hs') =>
          Computation.add_handler_step inner handler fuel (s', hs')
            (Context.put mb' handled)
      | (Except.error unhandled, hs') =>
          some (GenStep.yielded unhandled, (s', hs'), mb')

/-- Claim C4: each resume of the wrapped computation drives the inner
computation.  If the inner completes, completion is propagated unchanged to
the outer caller; if the inner yields a request and the handler returns
`Ok result`, the result is stored in the Mailbox (the context now holds
`some result`) and the inner computation is resumed again — the wrapper
recurses on the inner's successor state — without anything being surfaced
to the outer caller. -/
theorem computation_add_handler_resume {σ σH M Y : Type}
    (inner : Machine σ M Y) (handler : σH → Y → Except Y M × σH)
    (fuel : Nat) (s : σ) (hs : σH) (mb : Option M) :
    (∀ s' mb', inner.step s mb = (GenStep.complete, s', mb') →
      Computation.add_handler_step inner handler (fuel + 1) (s, hs) mb =
        some (GenStep.complete, (s', hs), mb')) ∧
    (∀ y s' mb' res hs', inner.step s mb = (GenStep.yielded y, s', mb') →
      handler hs y = (Except.ok res, hs') →
      Computation.add_handler_step inner handler (fuel + 1) (s, hs) mb =
        Computation.add_handler_step inner handler fuel (s', hs') (some res)) := by
  constructor
  · intro s' mb' hstep
    simp [Computation.add_handler_step, hstep]
  · intro y s' mb' res hs' hstep hhandle
    simp [Computation.add_handler_step, hstep, hhandle, Context.put]

/-- Concrete instance for `computation_add_handler_resume`: the inner
computation yields `0` (accepted by the handler, which produces result `7`)
and then completes; both conjuncts are exercised at explicit inputs. -/
theorem computation_add_handler_resume_witness :
    Computation.add_handler_step (Machine.mk (fun s mb =>
        match s with
        | [] => (GenStep.complete, [], mb)
        | y :: rest => (GenStep.yielded y, rest, mb)))
      (fun (hs : Unit) (_y : Nat) => (Except.ok (7 : Nat), hs))
      2 (([0] : List Nat), ()) none =
    some (GenStep.complete, (([] : List Nat), ()), some 7) := by
  have h2 := (computation_add_handler_resume
      (Machine.mk (fun s mb =>
        match s with
        | [] => (GenStep.complete, [], mb)
        | y :: rest => (GenStep.yielded y, rest, mb)))
      (fun (hs : Unit) (_y : Nat) => (Except.ok (7 : Nat), hs))
      1 ([0] : List Nat) () none).2 0 [] none 7 () rfl rfl
  have h1 := (computation_add_handler_resume
      (Machine.mk (fun s mb =>
        match s with
        | [] => (GenStep.complete, [], mb)
        | y :: rest => (GenStep.yielded y, rest, mb)))
      (fun (hs : Unit) (_y : Nat) => (Except.ok (7 : Nat), hs))
      0 ([] : List Nat) () (some 7)).1 [] (some 7) rfl
  rw [h2, h1]

/-- Claim C5: with a handler that always declines — it returns
`Except.error` carrying the request it received, unchanged — the wrapped
computation behaves exactly like the inner one on every resume: an inner
completion is an outer completion, an inner yield is surfaced unchanged as
the wrapper's yield, and the Mailbox is exactly as the inner computation
left it (the wrapper writes nothing on a decline).  Declining is not an
error: the wrapper keeps running. -/
theorem computation_add_handler_decline {σ σH M Y : Type}
    (inner : Machine σ M Y) (handler : σH → Y → Except Y M × σH)
    (hdecl : ∀ hs y, (handler hs y).1 = Except.error y)
    (fuel : Nat) (s : σ) (hs : σH) (mb : Option M) :
    Computation.add_handler_step inner handler (fuel + 1) (s, hs) mb =
      some (match inner.step s mb with
        | (GenStep.complete, s', mb') => (GenStep.complete, (s', hs), mb')
        | (GenStep.yielded y, s', mb') =>
            (GenStep.yielded y, (s', (handler hs y).2), mb')) := by
  rcases hstep : inner.step s mb with ⟨g, s', mb'⟩
  cases g with
  | complete => simp [Computation.add_handler_step, hstep]
  | yielded y =>
    rcases hy : handler hs y with ⟨r, hs'⟩
    have hr : r = Except.error y := by
      have h0 := hdecl hs y
      rw [hy] at h0
      exact h0
    subst hr
    simp only [Computation.add_handler_step, hstep, hy]

/-- Concrete instance for `computation_add_handler_decline`: an
always-declining handler over an inner computation that yields `5`; the
wrapper surfaces `5` unchanged with the mailbox untouched. -/
theorem computation_add_handler_decline_witness :
    Computation.add_handler_step (Machine.mk (fun s mb =>
        match s with
        | [] => (GenStep.complete, [], mb)
        | y :: rest => (GenStep.yielded y, rest, mb)))
      (fun (hs : Unit) (y : Nat) => ((Except.error y : Except Nat Nat), hs))
      1 (([5] : List Nat), ()) none =
    some (GenStep.yielded 5, (([] : List Nat), ()), none) := by
  have h := computation_add_handler_decline
      (Machine.mk (fun s mb =>
        match s with
        | [] => (GenStep.complete, [], mb)
        | y :: rest => (GenStep.yielded y, rest, mb)))
      (fun (hs : Unit) (y : Nat) => ((Except.error y : Except Nat Nat), hs))
      (fun _ _ => rfl) 0 ([5] : List Nat) () none
  rw [h]

/-- `Block::add_handler` (new.rs): the wrapping generator's body.  One
resume drives the inner machine in a loop: on inner completion it breaks
(completes); on an inner yield `y` it runs `if let Ok(effect) = y.is_effect()`:
when `is_effect` returns `Ok effect` the handler is called — `Ok output`
writes `output` into the shared context and loops, `Err ny` yields `ny`
outward; when `is_effect` returns `Err` the `if let` does not match, nothing
at all happens with the request, and the loop resumes the inner machine
again.  Fuel bounds the internal loop; `none` means it ran out. -/
def Block.add_handler_step {σ σH M Y Eff NY : Type}
    (inner : Machine σ M Y) (isEffect : Y → Except Y Eff)
    (handler : σH → Eff → Except NY M × σH) :
    Nat → σ × σH → Option M → Option (GenStep NY × (σ × σH) × Option M)
  | 0, _, _ => none
  | fuel + 1, (s, hs), mb =>
    match inner.step s mb with
    | (GenStep.complete, s', mb') => some (GenStep.complete, (s', hs), mb')
    | (GenStep.yielded y, s', mb') =>
      match isEffect y with
      | Except.error _ => Block.add_handler_step inner isEffect handler fuel (s', hs) mb'
      | Except.ok e =>
        match handler hs e with
        | (Except.ok out, hs') =>
            Block.add_handler_step inner isEffect handler fuel (s', hs')
              (Context.put mb' out)
        | (Except.error ny, hs') => some (GenStep.yielded ny, (s', hs'), mb')

/-- Inner machine for the C1 counterexample: yields the request `5` once and
then completes; it never touches the mailbox. -/
def c1Inner : Machine (List Nat) Nat Nat :=
  Machine.mk (fun s mb =>
    match s with
    | [] => (GenStep.complete, [], mb)
    | y :: rest => (GenStep.yielded y, rest, mb))

/-- Effect classifier for the C1 counterexample: every request classifies as
Rest (`is_effect` returns `Err` carrying the request back, as the `Request`
trait contract prescribes). -/
def c1IsEffect (y : Nat) : Except Nat Nat :=
  Except.error y

/-- Handler for the C1 counterexample (never reached, since no request ever
classifies as this handler's kind). -/
def c1Handler (hs : Unit) (e : Nat) : Except Nat Nat × Unit :=
  (Except.error e, hs)

/-- Counterexample to claim C1 as stated.  The inner computation yields the
request `5`, which classifies as Rest (`c1IsEffect 5 = Except.error 5`).
The claim says this layer surfaces `5` unchanged as its own yield; in fact
the first resume of the wrapped computation (fuel `2` suffices — the result
is `some`, so no fuel ran out) returns completion, and in particular does
not yield `5`: the request was silently discarded. -/
theorem block_add_handler_rest_dropped_cex :
    Block.add_handler_step c1Inner c1IsEffect c1Handler 2 ([5], ()) none =
      some (GenStep.complete, ([], ()), none) ∧
    Block.add_handler_step c1Inner c1IsEffect c1Handler 2 ([5], ()) none ≠
      some (GenStep.yielded 5, ([], ()), none) := by
  constructor
  · rfl
  · decide

/-- Claim C1, amended.  In `Block::add_handler` (new.rs), a yielded request
that classifies as Rest (`is_effect` returns `Err`) is NOT surfaced: it is
silently discarded, the Mailbox is left exactly as the inner computation
left it, and the inner computation is resumed again within the same outer
resume.  Only a request that classifies as this handler's kind
(`is_effect` returns `Ok e`) but is declined by the handler
(`handler e = Err ny`) is surfaced as this layer's yield. -/
theorem block_add_handler_rest_dropped {σ σH M Y Eff NY : Type}
    (inner : Machine σ M Y) (isEffect : Y → Except Y Eff)
    (handler : σH → Eff → Except NY M × σH)
    (fuel : Nat) (s : σ) (hs : σH) (mb : Option M) :
    (∀ y y' s' mb', inner.step s mb = (GenStep.yielded y, s', mb') →
      isEffect y = Except.error y' →
      Block.add_handler_step inner isEffect handler (fuel + 1) (s, hs) mb =
        Block.add_handler_step inner isEffect handler fuel (s', hs) mb') ∧
    (∀ y e s' mb' ny hs', inner.step s mb = (GenStep.yielded y, s', mb') →
      isEffect y = Except.ok e →
      handler hs e = (Except.error ny, hs') →
      Block.add_handler_step inner isEffect handler (fuel + 1) (s, hs) mb =
        some (GenStep.yielded ny, (s', hs'), mb')) := by
  constructor
  · intro y y' s' mb' hstep heff
    simp only [Block.add_handler_step, hstep, heff]
  · intro y e s' mb' ny hs' hstep heff hh
    simp only [Block.add_handler_step, hstep, heff, hh]

/-- Concrete instance for `block_add_handler_rest_dropped`, at the inputs of
the counterexample: dropping the Rest request `5` reduces the resume to the
resume of the successor state, which completes. -/
theorem block_add_handler_rest_dropped_witness :
    Block.add_handler_step c1Inner c1IsEffect c1Handler 2 ([5], ()) none =
      Block.add_handler_step c1Inner c1IsEffect c1Handler 1 ([], ()) none := by
  exact (block_add_handler_rest_dropped c1Inner c1IsEffect c1Handler
    1 [5] () none).1 5 5 [] none rfl rfl

/-- `BTreeMap::insert` on the task table, modelled on a key-sorted
association list: insert before the first strictly larger key, replacing an
entry with an equal key. -/
def table_insert {Id σT : Type} [LinearOrder Id] (i : Id) (t : σT) :
    List (Id × σT) → List (Id × σT)
  | [] => [(i, t)]
  | (j, u) :: rest =>
    if i < j then (i, t) :: (j, u) :: rest
    else if i = j then (i, t) :: rest
    else (j, u) :: table_insert i t rest

/-- Control position of the `Block::spawn` generator between micro-steps:
`start ts` — top of the tick loop, task table `ts`, about to handle the root;
`poll rem kept` — inside the for-loop over the table, `rem` still to poll
this tick, `kept` the replacement table built so far (`new_tasks`). -/
inductive Phase (Id σT : Type) where
  | start : List (Id × σT) → Phase Id σT
  | poll : List (Id × σT) → List (Id × σT) → Phase Id σT
deriving DecidableEq, Repr

/-- State of the `Block::spawn` generator: the root machine's state
(`none` once the root completed — `generator.take()`) and the control
position with the task table. -/
structure SpawnState (σR Id σT : Type) where
  root : Option σR
  phase : Phase Id σT
deriving DecidableEq, Repr

/-- Observable of one scheduler micro-step: an internal step, a value
yielded outward by the spawn layer, or completion of the whole scheduler. -/
inductive SpawnEv (Y : Type) where
  | silent
  | yields : Y → SpawnEv Y
  | done
deriving DecidableEq, Repr

/-- One micro-step of the `Block::spawn` generator's body (new.rs).
Parameters embed the trait methods and arguments: `isTask` is
`Request::is_task` (`Ok task` / `Err` carrying the request back), `taskId`
is `TaskId::task_id`, `taskGen` is the `task_gen` argument giving a fresh
sub-task state, and `taskM` is the sub-task machine, whose yields are
`Sum.inl further` (`Either::Left`, forwarded outward) or `Sum.inr output`
(`Either::Right`, put into the shared context).  The cases follow the
source: at the top of the loop a live root is resumed once — completion
kills it, `is_task = Ok` inserts into the table, `is_task = Err y` yields
`y` — and in every case control falls into the for-loop over the table;
the for-loop polls the head task — completion drops it, a `Left` yield
keeps it and yields outward, a `Right` yield keeps it and `put`s the
output; at the end of the for-loop the rebuilt table replaces the old one
and the loop breaks (scheduler completes) exactly when the root is dead
and the table is empty. -/
def Block.spawn_step {σR σT M Y Task Id : Type} [LinearOrder Id]
    (root : Machine σR M Y) (isTask : Y → Except Y Task)
    (taskId : Task → Id) (taskGen : Task → σT)
    (taskM : Machine σT M (Y ⊕ M)) :
    SpawnState σR Id σT → Option M →
      SpawnEv Y × SpawnState σR Id σT × Option M
  | ⟨some s, Phase.start ts⟩, mb =>
    match root.step s mb with
    | (GenStep.complete, _, mb') =>
        (SpawnEv.silent, ⟨none, Phase.poll ts []⟩, mb')
    | (GenStep.yielded y, s', mb') =>
      match isTask y with
      | Except.ok t =>
          (SpawnEv.silent,
            ⟨some s', Phase.poll (table_insert (taskId t) (taskGen t) ts) []⟩,
            mb')
      | Except.error y' =>
          (SpawnEv.yields y', ⟨some s', Phase.poll ts []⟩, mb')
  | ⟨none, Phase.start ts⟩, mb =>
      (SpawnEv.silent, ⟨none, Phase.poll ts []⟩, mb)
  | ⟨none, Phase.poll [] []⟩, mb =>
      (SpawnEv.done, ⟨none, Phase.poll [] []⟩, mb)
  | ⟨some s, Phase.poll [] kept⟩, mb =>
      (SpawnEv.silent, ⟨some s, Phase.start kept⟩, mb)
  | ⟨none, Phase.poll [] (k :: kept)⟩, mb =>
      (SpawnEv.silent, ⟨none, Phase.start (k :: kept)⟩, mb)
  | ⟨r, Phase.poll ((i, u) :: rest) kept⟩, mb =>
    match taskM.step u mb with
    | (GenStep.complete, _, mb') =>
        (SpawnEv.silent, ⟨r, Phase.poll rest kept⟩, mb')
    | (GenStep.yielded (Sum.inl further), u', mb') =>
        (SpawnEv.yields further,
          ⟨r, Phase.poll rest (kept ++ [(i, u')])⟩, mb')
    | (GenStep.yielded (Sum.inr output), u', mb') =>
        (SpawnEv.silent, ⟨r, Phase.poll rest (kept ++ [(i, u')])⟩,
          Context.put mb' output)

/-- The task id a micro-step from this state polls, if it is a polling
step: the head of the remaining-tasks list. -/
def observe_poll {σR Id σT : Type} (st : SpawnState σR Id σT) : Option Id :=
  match st.phase with
  | Phase.poll ((i, _) :: _) _ => some i
  | _ => none

/-- The sequence of states the scheduler visits, starting from `st` with
mailbox `mb`, for `fuel` micro-steps (the state BEFORE each step). -/
def spawn_trace {σR σT M Y Task Id : Type} [LinearOrder Id]
    (root : Machine σR M Y) (isTask : Y → Except Y Task)
    (taskId : Task → Id) (taskGen : Task → σT)
    (taskM : Machine σT M (Y ⊕ M)) :
    Nat → SpawnState σR Id σT → Option M → List (SpawnState σR Id σT)
  | 0, _, _ => []
  | fuel + 1, st, mb =>
    let r := Block.spawn_step root isTask taskId taskGen taskM st mb
    st :: spawn_trace root isTask taskId taskGen taskM fuel r.2.1 r.2.2

/-- The observable run: for each of `fuel` micro-steps, the event the step
produces paired with the task id it polls (if it is a polling step). -/
def spawn_run {σR σT M Y Task Id : Type} [LinearOrder Id]
    (root : Machine σR M Y) (isTask : Y → Except Y Task)
    (taskId : Task → Id) (taskGen : Task → σT)
    (taskM : Machine σT M (Y ⊕ M)) :
    Nat → SpawnState σR Id σT → Option M → List (SpawnEv Y × Option Id)
  | 0, _, _ => []
  | fuel + 1, st, mb =>
    let r := Block.spawn_step root isTask taskId taskGen taskM st mb
    (r.1, observe_poll st) ::
      spawn_run root isTask taskId taskGen taskM fuel r.2.1 r.2.2

/-- Iterated micro-steps: the state and mailbox after `n` micro-steps. -/
def spawn_stepN {σR σT M Y Task Id : Type} [LinearOrder Id]
    (root : Machine σR M Y) (isTask : Y → Except Y Task)
    (taskId : Task → Id) (taskGen : Task → σT)
    (taskM : Machine σT M (Y ⊕ M)) :
    Nat → SpawnState σR Id σT × Option M → SpawnState σR Id σT × Option M
  | 0, p => p
  | n + 1, (st, mb) =>
    let r := Block.spawn_step root isTask taskId taskGen taskM st mb
    spawn_stepN root isTask taskId taskGen taskM n (r.2.1, r.2.2)

/-- All task ids present in a scheduler state, in traversal order: for a
polling state the kept (rebuilt) entries come first, then the entries still
to poll. -/
def state_keys {σR Id σT : Type} (st : SpawnState σR Id σT) : List Id :=
  match st.phase with
  | Phase.start ts => ts.map Prod.fst
  | Phase.poll rem kept => kept.map Prod.fst ++ rem.map Prod.fst

/-- The task table of a scheduler state is key-sorted (strictly ascending),
in traversal order. -/
def state_sorted {σR Id σT : Type} [LinearOrder Id]
    (st : SpawnState σR Id σT) : Prop :=
  (state_keys st).Pairwise (· < ·)

/-- A script machine: yields the elements of its state list in order, then
completes; it never touches the mailbox. -/
def scriptM (Y M : Type) : Machine (List Y) M Y :=
  Machine.mk (fun s mb =>
    match s with
    | [] => (GenStep.complete, [], mb)
    | y :: rest => (GenStep.yielded y, rest, mb))

/-- Concrete root for scheduler scenarios: a script over requests
`Sum.inl i` (spawn the task with id `i`) and `Sum.inr x` (any other
request, to be forwarded). -/
def rootC : Machine (List (Nat ⊕ Nat)) Nat (Nat ⊕ Nat) :=
  scriptM (Nat ⊕ Nat) Nat

/-- Concrete `Request::is_task`: `Sum.inl i` is a task with descriptor `i`,
anything else is returned back unchanged in `Err`. -/
def isTaskC : Nat ⊕ Nat → Except (Nat ⊕ Nat) Nat
  | Sum.inl i => Except.ok i
  | Sum.inr x => Except.error (Sum.inr x)

/-- Concrete `task_gen`: the task with id `i` outputs `i` twice and then
completes. -/
def taskGenC (i : Nat) : List ((Nat ⊕ Nat) ⊕ Nat) :=
  [Sum.inr i, Sum.inr i]

/-- Concrete sub-task machine: a script over `Either`-tagged yields. -/
def taskC : Machine (List ((Nat ⊕ Nat) ⊕ Nat)) Nat ((Nat ⊕ Nat) ⊕ Nat) :=
  scriptM ((Nat ⊕ Nat) ⊕ Nat) Nat

/-- The concrete scheduler micro-step. -/
def spawn_stepC :
    SpawnState (List (Nat ⊕ Nat)) Nat (List ((Nat ⊕ Nat) ⊕ Nat)) →
      Option Nat →
      SpawnEv (Nat ⊕ Nat) ×
        SpawnState (List (Nat ⊕ Nat)) Nat (List ((Nat ⊕ Nat) ⊕ Nat)) ×
        Option Nat :=
  Block.spawn_step rootC isTaskC (fun i => i) taskGenC taskC

/-- The concrete scheduler's observable run. -/
def spawn_runC :
    Nat → SpawnState (List (Nat ⊕ Nat)) Nat (List ((Nat ⊕ Nat) ⊕ Nat)) →
      Option Nat → List (SpawnEv (Nat ⊕ Nat) × Option Nat) :=
  spawn_run rootC isTaskC (fun i => i) taskGenC taskC

/-- The concrete scheduler's iterated micro-step. -/
def spawn_stepNC :
    Nat →
      SpawnState (List (Nat ⊕ Nat)) Nat (List ((Nat ⊕ Nat) ⊕ Nat)) ×
        Option Nat →
      SpawnState (List (Nat ⊕ Nat)) Nat (List ((Nat ⊕ Nat) ⊕ Nat)) ×
        Option Nat :=
  spawn_stepN rootC isTaskC (fun i => i) taskGenC taskC

/-- The concrete scheduler's state trace. -/
def spawn_traceC :
    Nat → SpawnState (List (Nat ⊕ Nat)) Nat (List ((Nat ⊕ Nat) ⊕ Nat)) →
      Option Nat →
      List (SpawnState (List (Nat ⊕ Nat)) Nat (List ((Nat ⊕ Nat) ⊕ Nat))) :=
  spawn_trace rootC isTaskC (fun i => i) taskGenC taskC

/-- Claim C6: scheduler termination.  (1) A root that completes on its very
first resume, with an empty task table, makes the scheduler's run terminate
after exactly one tick: the observable run is one silent micro-step (the
root resume plus the empty polling pass) followed by `done`, with no task
ever polled.  (2) When the root is dead, the root-resume step is skipped:
from the top of a tick with root `none` the scheduler moves silently
straight to the polling pass, for any task table — and that step does not
consult the root machine at all (the transition is identical for every root
machine).  (3) The tick loop emits `done` exactly when the root is dead AND
the task table is empty at the end-of-tick check. -/
theorem spawn_termination {σR σT M Y Task Id : Type} [LinearOrder Id]
    (root : Machine σR M Y) (isTask : Y → Except Y Task)
    (taskId : Task → Id) (taskGen : Task → σT)
    (taskM : Machine σT M (Y ⊕ M)) :
    (∀ s mb s0 mb0, root.step s mb = (GenStep.complete, s0, mb0) →
      spawn_run root isTask taskId taskGen taskM 2
          ⟨some s, Phase.start []⟩ mb =
        [(SpawnEv.silent, none), (SpawnEv.done, none)]) ∧
    (∀ (root' : Machine σR M Y) (ts : List (Id × σT)) mb,
      Block.spawn_step root isTask taskId taskGen taskM
          ⟨none, Phase.start ts⟩ mb =
        (SpawnEv.silent, ⟨none, Phase.poll ts []⟩, mb) ∧
      Block.spawn_step root isTask taskId taskGen taskM
          ⟨none, Phase.start ts⟩ mb =
        Block.spawn_step root' isTask taskId taskGen taskM
          ⟨none, Phase.start ts⟩ mb) ∧
    (∀ (st : SpawnState σR Id σT) mb,
      (Block.spawn_step root isTask taskId taskGen taskM st mb).1 =
          SpawnEv.done ↔
        st.root = none ∧ st.phase = Phase.poll [] []) := by
  refine ⟨?_, ?_, ?_⟩
  · intro s mb s0 mb0 hstep
    simp [spawn_run, Block.spawn_step, hstep, observe_poll]
  · intro root' ts mb
    constructor <;> simp [Block.spawn_step]
  · intro st mb
    rcases st with ⟨r, ph⟩
    cases r with
    | none =>
      cases ph with
      | start ts => simp [Block.spawn_step]
      | poll rem kept =>
        cases rem with
        | nil =>
          cases kept with
          | nil => simp [Block.spawn_step]
          | cons k kept => simp [Block.spawn_step]
        | cons p rest =>
          rcases p with ⟨i, u⟩
          rcases h : taskM.step u mb with ⟨g, u', mb'⟩
          cases g with
          | complete => simp [Block.spawn_step, h]
          | yielded y =>
            cases y with
            | inl further => simp [Block.spawn_step, h]
            | inr output => simp [Block.spawn_step, h]
    | some s =>
      cases ph with
      | start ts =>
        rcases h : root.step s mb with ⟨g, s', mb'⟩
        cases g with
        | complete => simp [Block.spawn_step, h]
        | yielded y =>
          rcases ht : isTask y with t | y'
          · simp [Block.spawn_step, h, ht]
          · simp [Block.spawn_step, h, ht]
      | poll rem kept =>
        cases rem with
        | nil => simp [Block.spawn_step]
        | cons p rest =>
          rcases p with ⟨i, u⟩
          rcases h : taskM.step u mb with ⟨g, u', mb'⟩
          cases g with
          | complete => simp [Block.spawn_step, h]
          | yielded y =>
            cases y with
            | inl further => simp [Block.spawn_step, h]
            | inr output => simp [Block.spawn_step, h]

/-- Concrete instance for `spawn_termination`: the concrete root with the
empty script completes on its first resume and spawns nothing, and the
concrete scheduler's run is exactly one silent tick followed by `done`. -/
theorem spawn_termination_witness :
    spawn_runC 2 ⟨some [], Phase.start []⟩ none =
      [(SpawnEv.silent, none), (SpawnEv.done, none)] := by
  exact (spawn_termination rootC isTaskC (fun i => i) taskGenC taskC).1
    [] none [] none rfl

/-- Claim C8: Output handling.  (1) In general, when the polled sub-task
yields `Either::Right output` the scheduler keeps the task (it is appended
to the rebuilt table) and stores the value into the root's Mailbox by
`Context::put`, i.e. the mailbox afterwards is `some output` whatever it
held before.  (2) Concretely: with a dead root and sub-tasks `1` and `2`
both producing an Output in the same tick (`10` and `20`), polled in
ascending order, the tick ends with both tasks kept and the root Mailbox
holding task `2`'s value, `some 20`. -/
theorem spawn_output_overwrite {σR σT M Y Task Id : Type} [LinearOrder Id]
    (root : Machine σR M Y) (isTask : Y → Except Y Task)
    (taskId : Task → Id) (taskGen : Task → σT)
    (taskM : Machine σT M (Y ⊕ M)) :
    (∀ (r : Option σR) i u rest kept mb u' mb' v,
      taskM.step u mb = (GenStep.yielded (Sum.inr v), u', mb') →
      Block.spawn_step root isTask taskId taskGen taskM
          ⟨r, Phase.poll ((i, u) :: rest) kept⟩ mb =
        (SpawnEv.silent, ⟨r, Phase.poll rest (kept ++ [(i, u')])⟩, some v)) ∧
    spawn_stepNC 3
        (⟨none, Phase.start [(1, [Sum.inr 10]), (2, [Sum.inr 20])]⟩, none) =
      (⟨none, Phase.poll [] [(1, []), (2, [])]⟩, some 20) := by
  constructor
  · intro r i u rest kept mb u' mb' v hstep
    cases r with
    | none => simp [Block.spawn_step, hstep, Context.put]
    | some s => simp [Block.spawn_step, hstep, Context.put]
  · rfl

/-- Concrete instance for `spawn_output_overwrite`: polling task `1`, whose
next yield is `Output 10`, keeps the task and overwrites the (empty)
mailbox with `some 10`. -/
theorem spawn_output_overwrite_witness :
    spawn_stepC ⟨none, Phase.poll [(1, [Sum.inr 10])] []⟩ none =
      (SpawnEv.silent, ⟨none, Phase.poll [] [(1, [])]⟩, some 10) := by
  exact (spawn_output_overwrite rootC isTaskC (fun i => i) taskGenC taskC).1
    none 1 [Sum.inr 10] [] [] none [] none 10 rfl

/-- Claim C2: a forwarded root request interrupts the tick before any
sub-task is polled that round.  (1) In general, whenever the live root's
resume yields a request `y` with `is_task y = Err x`, the scheduler's very
next observable is `yields x`, and the successor control position is
`poll ts []` — the polling pass of that tick has not begun (every task is
still unpolled).  (2) End-to-end, concretely: the root script yields
`Spawn` of task `5` on its first resume and the Forward request `99` on its
next resume; in the observable run, the tick-2 event `yields (Sum.inr 99)`
(position 3) occurs at a non-polling step and strictly before task `5`'s
tick-2 poll (position 4). -/
theorem spawn_forward_before_poll {σR σT M Y Task Id : Type} [LinearOrder Id]
    (root : Machine σR M Y) (isTask : Y → Except Y Task)
    (taskId : Task → Id) (taskGen : Task → σT)
    (taskM : Machine σT M (Y ⊕ M)) :
    (∀ s (ts : List (Id × σT)) mb y x s' mb',
      root.step s mb = (GenStep.yielded y, s', mb') →
      isTask y = Except.error x →
      Block.spawn_step root isTask taskId taskGen taskM
          ⟨some s, Phase.start ts⟩ mb =
        (SpawnEv.yields x, ⟨some s', Phase.poll ts []⟩, mb')) ∧
    spawn_runC 9 ⟨some [Sum.inl 5, Sum.inr 99], Phase.start []⟩ none =
      [(SpawnEv.silent, none), (SpawnEv.silent, some 5),
       (SpawnEv.silent, none), (SpawnEv.yields (Sum.inr 99), none),
       (SpawnEv.silent, some 5), (SpawnEv.silent, none),
       (SpawnEv.silent, none), (SpawnEv.silent, some 5),
       (SpawnEv.done, none)] := by
  constructor
  · intro s ts mb y x s' mb' hstep htask
    simp [Block.spawn_step, hstep, htask]
  · rfl

/-- Concrete instance for `spawn_forward_before_poll`: at the top of tick 2
of the concrete scenario the root yields the Forward request `99`, and the
scheduler surfaces it with the polling pass not yet begun. -/
theorem spawn_forward_before_poll_witness :
    spawn_stepC ⟨some [Sum.inr 99], Phase.start [(5, [Sum.inr 5])]⟩ (some 5) =
      (SpawnEv.yields (Sum.inr 99),
        ⟨some [], Phase.poll [(5, [Sum.inr 5])] []⟩, some 5) := by
  exact (spawn_forward_before_poll rootC isTaskC (fun i => i)
      taskGenC taskC).1
    [Sum.inr 99] [(5, [Sum.inr 5])] (some 5) (Sum.inr 99) (Sum.inr 99)
    [] (some 5) rfl rfl

/-- Claim C10: the task table grows only from the root's yields.  (1) When a
polled sub-task yields `Either::Left y` (a Forward), the scheduler surfaces
`y` outward unchanged without ever consulting `is_task` — the transition is
the same for every classifier `isTask'`, so in particular for one that
would classify `y` as a Spawn request — and the rebuilt table keeps exactly
the polled task, creating no new entry.  (2) No polling-phase micro-step
ever adds a task id: every id present afterwards was present before (table
entries are created by root `Spawn` yields only, and entries disappear only
by sub-task completion). -/
theorem spawn_table_only_from_root {σR σT M Y Task Id : Type} [LinearOrder Id]
    (root : Machine σR M Y) (isTask : Y → Except Y Task)
    (taskId : Task → Id) (taskGen : Task → σT)
    (taskM : Machine σT M (Y ⊕ M)) :
    (∀ (isTask' : Y → Except Y Task) (r : Option σR) i u rest kept mb u' mb' y,
      taskM.step u mb = (GenStep.yielded (Sum.inl y), u', mb') →
      Block.spawn_step root isTask' taskId taskGen taskM
          ⟨r, Phase.poll ((i, u) :: rest) kept⟩ mb =
        (SpawnEv.yields y, ⟨r, Phase.poll rest (kept ++ [(i, u')])⟩, mb')) ∧
    (∀ (st : SpawnState σR Id σT) mb rem kept,
      st.phase = Phase.poll rem kept →
      ∀ j, j ∈ state_keys
          (Block.spawn_step root isTask taskId taskGen taskM st mb).2.1 →
        j ∈ state_keys st) := by
  constructor
  · intro isTask' r i u rest kept mb u' mb' y hstep
    cases r with
    | none => simp [Block.spawn_step, hstep]
    | some s => simp [Block.spawn_step, hstep]
  · intro st mb rem kept hph j hj
    rcases st with ⟨r, ph⟩
    simp only at hph
    subst hph
    cases rem with
    | nil =>
      cases r with
      | none =>
        cases kept with
        | nil => simp [Block.spawn_step, state_keys] at hj
        | cons k kept =>
          simp [Block.spawn_step, state_keys] at hj ⊢
          exact hj
      | some s => simpa [Block.spawn_step, state_keys] using hj
    | cons p rest =>
      rcases p with ⟨i, u⟩
      rcases h : taskM.step u mb with ⟨g, u', mb'⟩
      cases g with
      | complete =>
        simp [Block.spawn_step, h, state_keys] at hj ⊢
        tauto
      | yielded y =>
        cases y with
        | inl further =>
          simp [Block.spawn_step, h, state_keys] at hj ⊢
          tauto
        | inr output =>
          simp [Block.spawn_step, h, state_keys] at hj ⊢
          tauto

/-- Concrete instance for `spawn_table_only_from_root`: task `5` forwards
the request `Sum.inl 9` — which the concrete classifier would take as
"spawn task 9" — yet the scheduler surfaces it unchanged and the table
keeps exactly the entry for task `5`; no task `9` is created. -/
theorem spawn_table_only_from_root_witness :
    spawn_stepC ⟨none, Phase.poll [(5, [Sum.inl (Sum.inl 9)])] []⟩ none =
      (SpawnEv.yields (Sum.inl 9),
        ⟨none, Phase.poll [] [(5, [])]⟩, none) := by
  exact (spawn_table_only_from_root rootC isTaskC (fun i => i)
      taskGenC taskC).1
    isTaskC none 5 [Sum.inl (Sum.inl 9)] [] [] none [] none (Sum.inl 9) rfl

/-- The inserted key is present in the table after `table_insert`. -/
theorem table_insert_mem {Id σT : Type} [LinearOrder Id] (i : Id) (t : σT)
    (l : List (Id × σT)) :
    i ∈ (table_insert i t l).map Prod.fst := by
  induction l with
  | nil => simp [table_insert]
  | cons p rest ih =>
    rcases p with ⟨j, u⟩
    by_cases h1 : i < j
    · simp [table_insert, h1]
    · by_cases h2 : i = j
      · simp [table_insert, h1, h2]
      · simp [table_insert, h1, h2, ih]

/-- Every key of the table after `table_insert` is the inserted key or one
of the old keys. -/
theorem table_insert_keys_sub {Id σT : Type} [LinearOrder Id] (i : Id)
    (t : σT) (l : List (Id × σT)) :
    ∀ b ∈ (table_insert i t l).map Prod.fst,
      b = i ∨ b ∈ l.map Prod.fst := by
  induction l with
  | nil =>
    intro b hb
    simp only [table_insert, List.map_cons, List.map_nil, List.mem_cons,
      List.not_mem_nil, or_false] at hb
    exact Or.inl hb
  | cons p rest ih =>
    rcases p with ⟨j, u⟩
    intro b hb
    have hunf : table_insert i t ((j, u) :: rest) =
        if i < j then (i, t) :: (j, u) :: rest
        else if i = j then (i, t) :: rest
        else (j, u) :: table_insert i t rest := rfl
    rw [hunf] at hb
    by_cases h1 : i < j
    · rw [if_pos h1] at hb
      simp only [List.map_cons, List.mem_cons] at hb
      simp only [List.map_cons, List.mem_cons]
      tauto
    · rw [if_neg h1] at hb
      by_cases h2 : i = j
      · rw [if_pos h2] at hb
        simp only [List.map_cons, List.mem_cons] at hb
        simp only [List.map_cons, List.mem_cons]
        tauto
      · rw [if_neg h2] at hb
        simp only [List.map_cons, List.mem_cons] at hb
        simp only [List.map_cons, List.mem_cons]
        rcases hb with rfl | hb
        · exact Or.inr (Or.inl rfl)
        · rcases ih b hb with rfl | hb'
          · exact Or.inl rfl
          · exact Or.inr (Or.inr hb')

/-- `table_insert` preserves strictly ascending key order (the `BTreeMap`
invariant of the task table). -/
theorem table_insert_sorted {Id σT : Type} [LinearOrder Id] (i : Id)
    (t : σT) (l : List (Id × σT))
    (h : (l.map Prod.fst).Pairwise (· < ·)) :
    ((table_insert i t l).map Prod.fst).Pairwise (· < ·) := by
  induction l with
  | nil => simp [table_insert]
  | cons p rest ih =>
    rcases p with ⟨j, u⟩
    simp only [List.map_cons, List.pairwise_cons] at h
    obtain ⟨hj, hrest⟩ := h
    have hunf : table_insert i t ((j, u) :: rest) =
        if i < j then (i, t) :: (j, u) :: rest
        else if i = j then (i, t) :: rest
        else (j, u) :: table_insert i t rest := rfl
    rw [hunf]
    by_cases h1 : i < j
    · rw [if_pos h1]
      simp only [List.map_cons, List.pairwise_cons]
      refine ⟨?_, hj, hrest⟩
      intro b hb
      rcases List.mem_cons.mp hb with rfl | hb'
      · exact h1
      · exact lt_trans h1 (hj b hb')
    · rw [if_neg h1]
      by_cases h2 : i = j
      · rw [if_pos h2]
        simp only [List.map_cons, List.pairwise_cons]
        refine ⟨?_, hrest⟩
        intro b hb
        rw [h2]
        exact hj b hb
      · have hji : j < i := lt_of_le_of_ne (not_lt.mp h1) (Ne.symm h2)
        rw [if_neg h2]
        simp only [List.map_cons, List.pairwise_cons]
        refine ⟨?_, ih hrest⟩
        intro b hb
        rcases table_insert_keys_sub i t rest b hb with rfl | hb'
        · exact hji
        · exact hj b hb'

/-- During the polling pass of a tick, the scheduler consumes the
remaining-tasks list head first: polling `rem` takes exactly `rem.length`
micro-steps, and the ids polled, in order, are exactly the keys of `rem`
— each currently live sub-task is polled exactly once per tick, in table
order. -/
theorem poll_trace_ids {σR σT M Y Task Id : Type} [LinearOrder Id]
    (root : Machine σR M Y) (isTask : Y → Except Y Task)
    (taskId : Task → Id) (taskGen : Task → σT)
    (taskM : Machine σT M (Y ⊕ M)) (rem : List (Id × σT)) :
    ∀ (r : Option σR) (kept : List (Id × σT)) mb,
      (spawn_trace root isTask taskId taskGen taskM rem.length
          ⟨r, Phase.poll rem kept⟩ mb).filterMap observe_poll =
        rem.map Prod.fst := by
  induction rem with
  | nil =>
    intro r kept mb
    simp [spawn_trace]
  | cons p rest ih =>
    rcases p with ⟨i, u⟩
    intro r kept mb
    rcases h : taskM.step u mb with ⟨g, u', mb'⟩
    cases g with
    | complete =>
      cases r with
      | none => simp [spawn_trace, Block.spawn_step, h, observe_poll, ih]
      | some s => simp [spawn_trace, Block.spawn_step, h, observe_poll, ih]
    | yielded y =>
      cases y with
      | inl further =>
        cases r with
        | none => simp [spawn_trace, Block.spawn_step, h, observe_poll, ih]
        | some s => simp [spawn_trace, Block.spawn_step, h, observe_poll, ih]
      | inr output =>
        cases r with
        | none => simp [spawn_trace, Block.spawn_step, h, observe_poll, ih]
        | some s => simp [spawn_trace, Block.spawn_step, h, observe_poll, ih]

/-- A polling-phase micro-step never consults the root machine: the
transition is identical for every root machine.  (The root is resumed only
at the top of a tick.) -/
theorem poll_step_root_indep {σR σT M Y Task Id : Type} [LinearOrder Id]
    (root root' : Machine σR M Y) (isTask : Y → Except Y Task)
    (taskId : Task → Id) (taskGen : Task → σT)
    (taskM : Machine σT M (Y ⊕ M))
    (r : Option σR) (rem kept : List (Id × σT)) (mb : Option M) :
    Block.spawn_step root isTask taskId taskGen taskM
        ⟨r, Phase.poll rem kept⟩ mb =
      Block.spawn_step root' isTask taskId taskGen taskM
        ⟨r, Phase.poll rem kept⟩ mb := by
  cases r <;> cases rem <;> cases kept <;> rfl

/-- Claim C9: when the root yields a Spawn request in a tick, (1) the new
sub-task is materialized (`taskGen`) and inserted into the task table, and
the scheduler moves silently — before resuming the root again — into that
same tick's polling pass over the table containing the new entry, whose id
is present in it; (2) the polling pass polls exactly the keys of the table,
in order — so the new task is polled for the first time during that tick's
pass; (3) no polling-phase micro-step consults the root machine, so the
new task's first poll happens before the root is resumed again. -/
theorem spawn_new_task_polled_same_tick {σR σT M Y Task Id : Type}
    [LinearOrder Id]
    (root : Machine σR M Y) (isTask : Y → Except Y Task)
    (taskId : Task → Id) (taskGen : Task → σT)
    (taskM : Machine σT M (Y ⊕ M)) :
    (∀ s (ts : List (Id × σT)) mb y t s' mb',
      root.step s mb = (GenStep.yielded y, s', mb') →
      isTask y = Except.ok t →
      Block.spawn_step root isTask taskId taskGen taskM
          ⟨some s, Phase.start ts⟩ mb =
        (SpawnEv.silent,
          ⟨some s',
            Phase.poll (table_insert (taskId t) (taskGen t) ts) []⟩, mb') ∧
      taskId t ∈ (table_insert (taskId t) (taskGen t) ts).map Prod.fst) ∧
    (∀ (r : Option σR) (rem kept : List (Id × σT)) mb,
      (spawn_trace root isTask taskId taskGen taskM rem.length
          ⟨r, Phase.poll rem kept⟩ mb).filterMap observe_poll =
        rem.map Prod.fst) ∧
    (∀ (root' : Machine σR M Y) (r : Option σR)
        (rem kept : List (Id × σT)) mb,
      Block.spawn_step root isTask taskId taskGen taskM
          ⟨r, Phase.poll rem kept⟩ mb =
        Block.spawn_step root' isTask taskId taskGen taskM
          ⟨r, Phase.poll rem kept⟩ mb) := by
  refine ⟨?_, ?_, ?_⟩
  · intro s ts mb y t s' mb' hstep htask
    constructor
    · simp [Block.spawn_step, hstep, htask]
    · exact table_insert_mem (taskId t) (taskGen t) ts
  · intro r rem kept mb
    exact poll_trace_ids root isTask taskId taskGen taskM rem r kept mb
  · intro root' r rem kept mb
    exact poll_step_root_indep root root' isTask taskId taskGen taskM
      r rem kept mb

/-- Concrete instance for `spawn_new_task_polled_same_tick`: the concrete
root yields `Spawn` of task `5`; the scheduler inserts it and moves into
the same tick's polling pass, with id `5` in the table. -/
theorem spawn_new_task_polled_same_tick_witness :
    spawn_stepC ⟨some [Sum.inl 5], Phase.start []⟩ none =
      (SpawnEv.silent,
        ⟨some [], Phase.poll (table_insert 5 (taskGenC 5) []) []⟩, none) ∧
    (5 : Nat) ∈ (table_insert 5 (taskGenC 5)
        ([] : List (Nat × List ((Nat ⊕ Nat) ⊕ Nat)))).map Prod.fst := by
  exact (spawn_new_task_polled_same_tick rootC isTaskC (fun i => i)
      taskGenC taskC).1
    [Sum.inl 5] [] none (Sum.inl 5) 5 [] none rfl rfl

/-- Claim C7: deterministic ascending poll order.  (1) Each tick's polling
pass polls every currently live sub-task exactly once, in table order (the
polled-id sequence is exactly the table's key list).  (2) Table order is
ascending `TaskId`: strictly ascending key order is an invariant of every
scheduler micro-step (insertion goes through `table_insert`, the rebuilt
table is assembled in polling order).  (3) Concretely, inserting tasks with
ids `3`, `1`, `2` into the empty table — in each of the six possible
insertion orders — yields the key list `[1, 2, 3]`, and the next tick from
that table polls ids `1, 2, 3` in that order. -/
theorem spawn_poll_order {σR σT M Y Task Id : Type} [LinearOrder Id]
    (root : Machine σR M Y) (isTask : Y → Except Y Task)
    (taskId : Task → Id) (taskGen : Task → σT)
    (taskM : Machine σT M (Y ⊕ M)) (u1 u2 u3 : σT) :
    (∀ (r : Option σR) (rem kept : List (Id × σT)) mb,
      (spawn_trace root isTask taskId taskGen taskM rem.length
          ⟨r, Phase.poll rem kept⟩ mb).filterMap observe_poll =
        rem.map Prod.fst) ∧
    (∀ (st : SpawnState σR Id σT) mb, state_sorted st →
      state_sorted
        (Block.spawn_step root isTask taskId taskGen taskM st mb).2.1) ∧
    ((table_insert 2 u2 (table_insert 1 u1 (table_insert 3 u3
        ([] : List (Nat × σT))))).map Prod.fst = [1, 2, 3] ∧
     (table_insert 1 u1 (table_insert 2 u2 (table_insert 3 u3
        ([] : List (Nat × σT))))).map Prod.fst = [1, 2, 3] ∧
     (table_insert 2 u2 (table_insert 3 u3 (table_insert 1 u1
        ([] : List (Nat × σT))))).map Prod.fst = [1, 2, 3] ∧
     (table_insert 3 u3 (table_insert 2 u2 (table_insert 1 u1
        ([] : List (Nat × σT))))).map Prod.fst = [1, 2, 3] ∧
     (table_insert 1 u1 (table_insert 3 u3 (table_insert 2 u2
        ([] : List (Nat × σT))))).map Prod.fst = [1, 2, 3] ∧
     (table_insert 3 u3 (table_insert 1 u1 (table_insert 2 u2
        ([] : List (Nat × σT))))).map Prod.fst = [1, 2, 3]) ∧
    (spawn_traceC 4
        ⟨none, Phase.start (table_insert 2 [] (table_insert 1 []
          (table_insert 3 [] [])))⟩ none).filterMap observe_poll =
      [1, 2, 3] := by
  refine ⟨?_, ?_, ?_, ?_⟩
  · intro r rem kept mb
    exact poll_trace_ids root isTask taskId taskGen taskM rem r kept mb
  · intro st mb hsort
    rcases st with ⟨r, ph⟩
    cases ph with
    | start ts =>
      cases r with
      | none =>
        simpa [state_sorted, state_keys, Block.spawn_step] using hsort
      | some s =>
        rcases h : root.step s mb with ⟨g, s', mb'⟩
        cases g with
        | complete =>
          simpa [state_sorted, state_keys, Block.spawn_step, h] using hsort
        | yielded y =>
          rcases ht : isTask y with y' | t
          · simpa [state_sorted, state_keys, Block.spawn_step, h, ht]
              using hsort
          · simp only [state_sorted, state_keys, Block.spawn_step, h, ht]
            simpa using table_insert_sorted (taskId t) (taskGen t) ts
              (by simpa [state_sorted, state_keys] using hsort)
    | poll rem kept =>
      cases rem with
      | nil =>
        cases r with
        | some s =>
          simpa [state_sorted, state_keys, Block.spawn_step] using hsort
        | none =>
          cases kept with
          | nil =>
            simp [state_sorted, state_keys, Block.spawn_step]
          | cons k kept' =>
            simpa [state_sorted, state_keys, Block.spawn_step] using hsort
      | cons p rest =>
        rcases p with ⟨i, u⟩
        rcases h : taskM.step u mb with ⟨g, u', mb'⟩
        have hsub : List.Sublist
            (kept.map Prod.fst ++ rest.map Prod.fst)
            (kept.map Prod.fst ++ (i :: rest.map Prod.fst)) :=
          List.Sublist.append_left
            (List.sublist_cons_self i (rest.map Prod.fst)) _
        cases g with
        | complete =>
          cases r with
          | none =>
            simp only [state_sorted, state_keys, Block.spawn_step, h]
            refine List.Pairwise.sublist hsub ?_
            simpa [state_sorted, state_keys] using hsort
          | some s =>
            simp only [state_sorted, state_keys, Block.spawn_step, h]
            refine List.Pairwise.sublist hsub ?_
            simpa [state_sorted, state_keys] using hsort
        | yielded y =>
          cases y with
          | inl further =>
            cases r with
            | none =>
              simpa [state_sorted, state_keys, Block.spawn_step, h,
                List.append_assoc] using hsort
            | some s =>
              simpa [state_sorted, state_keys, Block.spawn_step, h,
                List.append_assoc] using hsort
          | inr output =>
            cases r with
            | none =>
              simpa [state_sorted, state_keys, Block.spawn_step, h,
                List.append_assoc] using hsort
            | some s =>
              simpa [state_sorted, state_keys, Block.spawn_step, h,
                List.append_assoc] using hsort
  · refine ⟨rfl, rfl, rfl, rfl, rfl, rfl⟩
  · rfl

/-- Concrete instance for `spawn_poll_order`'s sortedness invariant: one
micro-step from the sorted two-task table keeps the key order sorted. -/
theorem spawn_poll_order_witness :
    state_sorted
      (spawn_stepC ⟨none, Phase.start [(1, []), (2, [])]⟩ none).2.1 := by
  exact ((spawn_poll_order rootC isTaskC (fun i => i) taskGenC taskC
      [] [] []).2.1)
    ⟨none, Phase.start [(1, []), (2, [])]⟩ none
    (by simp [state_sorted, state_keys])
